import Mathlib

/-!
Verification of the subconverter-failover liveness-and-alerting core.

The development shallowly embeds the three source components:
* `PriorityHealthCheck` (version extraction and the fast/full probe
  result construction),
* `HealthCheckConcurrencyController` (admission, queueing, lazy stats
  reset, deferred cleanup, queue drain), and
* `ResilientTelegramNotifier` (retry loop with exponential backoff and
  fallback delivery),
and proves the frozen claims about them.  JavaScript strings are
`String`/`List Char`, machine numbers are `Nat` (all quantities involved
are non-negative ms counts and counters), fallible operations return
`Option`/`Except`, and the single-threaded event-loop execution of the
controller is a step function over an explicit state driven by an event
trace.
-/

namespace SubFail

/-! ## JavaScript values

`extractVersionFromText` receives an arbitrary JS value and guards with
`if (!text || typeof text !== 'string')`.  We model the value space by
the constructors the guard distinguishes: strings versus everything
else (null, undefined, numbers, booleans). -/

inductive JSVal where
  | null : JSVal
  | undef : JSVal
  | num : Int → JSVal
  | boolean : Bool → JSVal
  | str : String → JSVal
deriving DecidableEq

/-! ## Regex fragments as deterministic matchers

The six version patterns of `extractVersionFromText` are built from
character classes, literals, `+` repetitions and one optional group, and
in each pattern every greedy repetition is followed by a character that
its class cannot match, so JavaScript's backtracking search coincides
with maximal-munch matching.  A matcher consumes a prefix of the input
and returns the consumed characters together with the rest. -/

def PM : Type := List Char → Option (List Char × List Char)

def pmChar (p : Char → Bool) : PM := fun cs =>
  match cs with
  | [] => none
  | c :: rest => if p c then some ([c], rest) else none

def pmMany1 (p : Char → Bool) : PM := fun cs =>
  if (cs.takeWhile p).isEmpty then none
  else some (cs.takeWhile p, cs.dropWhile p)

def pmSeq (a b : PM) : PM := fun cs =>
  match a cs with
  | none => none
  | some (m1, r1) =>
    match b r1 with
    | none => none
    | some (m2, r2) => some (m1 ++ m2, r2)

def pmOpt (a : PM) : PM := fun cs =>
  match a cs with
  | none => some ([], cs)
  | some res => some res

/-- One character, case-insensitively (the `/i` flag). -/
def charCI (c : Char) : PM := pmChar (fun x => x.toLower == c)

def pmLitCI : List Char → PM
  | [] => fun cs => some ([], cs)
  | p :: ps => pmSeq (charCI p) (pmLitCI ps)

/-- The class `\w`, i.e. `[A-Za-z0-9_]`. -/
def isWordChar (c : Char) : Bool := c.isAlphanum || c == '_'

/-- The fragment `[\d]+\.[\d]+\.[\d]+` shared by several patterns. -/
def semverPM : PM :=
  pmSeq (pmMany1 Char.isDigit) (pmSeq (pmChar (· == '.'))
    (pmSeq (pmMany1 Char.isDigit) (pmSeq (pmChar (· == '.'))
      (pmMany1 Char.isDigit))))

def wsPM : PM := pmMany1 Char.isWhitespace

def wordPM : PM := pmMany1 isWordChar

def subconvPM : PM := pmLitCI "subconverter".data

/-- `/(subconverter\s+v[\d]+\.[\d]+\.[\d]+-[\w]+(?:\s+backend)?)/i` -/
def versionPattern1 : PM :=
  pmSeq subconvPM (pmSeq wsPM (pmSeq (charCI 'v') (pmSeq semverPM
    (pmSeq (pmChar (· == '-')) (pmSeq wordPM
      (pmOpt (pmSeq wsPM (pmLitCI "backend".data))))))))

/-- `/(v[\d]+\.[\d]+\.[\d]+-[\w]+)/i` -/
def versionPattern2 : PM :=
  pmSeq (charCI 'v') (pmSeq semverPM (pmSeq (pmChar (· == '-')) wordPM))

/-- `/(subconverter\s+v[\d]+\.[\d]+\.[\d]+)/i` -/
def versionPattern3 : PM :=
  pmSeq subconvPM (pmSeq wsPM (pmSeq (charCI 'v') semverPM))

/-- `/([\d]+\.[\d]+\.[\d]+-[\w]+)/` -/
def versionPattern4 : PM :=
  pmSeq semverPM (pmSeq (pmChar (· == '-')) wordPM)

/-- `/([\d]+\.[\d]+\.[\d]+)/` -/
def versionPattern5 : PM := semverPM

/-- `/(subconverter)/i` -/
def versionPattern6 : PM := subconvPM

/-- `text.match(pattern)`: try each start position from the left; the
first position where the pattern matches yields the match. -/
def findAt (pm : PM) : List Char → Option (List Char)
  | [] => (pm []).map Prod.fst
  | c :: cs =>
    match pm (c :: cs) with
    | some (m, _) => some m
    | none => findAt pm cs

/-- The `for (const pattern of versionPatterns)` loop: first pattern
that matches anywhere in the text wins. -/
def matchPatterns (t : List Char) : Option (List Char) :=
  match findAt versionPattern1 t with
  | some m => some m
  | none =>
  match findAt versionPattern2 t with
  | some m => some m
  | none =>
  match findAt versionPattern3 t with
  | some m => some m
  | none =>
  match findAt versionPattern4 t with
  | some m => some m
  | none =>
  match findAt versionPattern5 t with
  | some m => some m
  | none => findAt versionPattern6 t

/-- JavaScript `String.prototype.trim`: strip whitespace from both
ends. -/
def trimJS (cs : List Char) : List Char :=
  ((cs.dropWhile Char.isWhitespace).reverse.dropWhile Char.isWhitespace).reverse

/-- JavaScript `haystack.includes(needle)`: substring containment. -/
def hasInfix (pat : List Char) : List Char → Bool
  | [] => pat.isEmpty
  | c :: cs => (pat.isPrefixOf (c :: cs)) || hasInfix pat cs

/-- `/\d+\.\d+/` used by the long-text token scan. -/
def digitDotDigitPM : PM :=
  pmSeq (pmMany1 Char.isDigit) (pmSeq (pmChar (· == '.')) (pmMany1 Char.isDigit))

/-- `text.split(/\s+/)` on already-trimmed text: whitespace-separated
words.  Fuelled recursion; the fuel is sized to the input length. -/
def splitWSGo : Nat → List Char → List (List Char)
  | 0, _ => []
  | _, [] => []
  | fuel + 1, cs =>
    let cs1 := cs.dropWhile Char.isWhitespace
    match cs1 with
    | [] => []
    | _ :: _ =>
      cs1.takeWhile (fun c => !c.isWhitespace) ::
        splitWSGo fuel (cs1.dropWhile (fun c => !c.isWhitespace))

def splitWS (cs : List Char) : List (List Char) := splitWSGo (cs.length + 1) cs

/-- The condition of the long-text token scan: the word is returned when
it contains `'v'` or matches `/\d+\.\d+/`, and is at most 30 characters
long. -/
def qualifiesWord (w : List Char) : Bool :=
  (w.contains 'v' || (findAt digitDotDigitPM w).isSome) && w.length ≤ 30

/-- Normalisation applied to a successful pattern match (`version` is
the trimmed match): keep it if it already mentions the service name
(case-insensitively), else prefix `subconverter ` when it starts with a
literal `'v'`, else prefix `subconverter v` when it starts with a
digit, else keep it. -/
def normalizeVersion (version : List Char) : List Char :=
  if hasInfix "subconverter".data (version.map Char.toLower) then version
  else if version.head? = some 'v' then "subconverter ".data ++ version
  else if (version.head?.map Char.isDigit).getD false then
    "subconverter v".data ++ version
  else version

/-- Body of `extractVersionFromText` for a non-empty string input (the
falsy/non-string guard is handled by the wrapper). -/
def extractChars (raw : List Char) : List Char :=
  let text := trimJS raw
  match matchPatterns text with
  | some m => normalizeVersion (trimJS m)
  | none =>
    if text.length ≤ 50 then
      if text.isEmpty then "subconverter".data else text
    else
      match (splitWS text).find? qualifiesWord with
      | some w => "subconverter ".data ++ w
      | none => "subconverter".data

/-- `PriorityHealthCheck.extractVersionFromText`.  Non-string and falsy
inputs short-circuit to the sentinel; the empty string is the only falsy
string. -/
def extractVersionFromText : JSVal → String
  | .str s => if s = "" then "subconverter" else String.mk (extractChars s.data)
  | _ => "subconverter"

/-! ## Probe results

`priorityCheck` and `fullCheck` each build a `checkFn` closure around a
`fetch` of `${url}/version`.  From the closure's point of view the
outside world produces one of: a transport error (abort/timeout or
connection failure, surfaced as an exception whose `name` is recorded),
or a response with a status code together with the outcome of reading
its body (`response.text()` can itself throw, modelled by `none`).  The
response time is measured in ms; `calculateResponseTimeScore` lives in
`utils.js` (an external collaborator per the spec) and is passed in as
an opaque pure function. -/

inductive ProbeOutcome where
  | fetchErr : String → ProbeOutcome
  | response : Nat → Nat → Option String → ProbeOutcome
deriving DecidableEq

structure HealthCheckResult where
  healthy : Bool
  responseTime : Option Nat
  responseTimeScore : Nat
  status : Nat
  version : String
  priority : String
  error : Option String
  timestamp : String
deriving DecidableEq

/-- The `checkFn` built by `PriorityHealthCheck.priorityCheck`: any 200
is healthy; a body-read failure keeps `healthy: true` with the generic
version string; non-200 and transport errors are unhealthy with score
0. -/
def priorityCheckFn (score : Nat → Nat) (ts : String) : ProbeOutcome → HealthCheckResult
  | .fetchErr e =>
    { healthy := false
      responseTime := none
      responseTimeScore := 0
      status := 0
      version := "未知版本"
      priority := "high"
      error := some e
      timestamp := ts }
  | .response rt status body =>
    if status == 200 then
      match body with
      | some text =>
        { healthy := true
          responseTime := some rt
          responseTimeScore := score rt
          status := status
          version := extractVersionFromText (.str text)
          priority := "high"
          error := none
          timestamp := ts }
      | none =>
        { healthy := true
          responseTime := some rt
          responseTimeScore := score rt
          status := status
          version := "subconverter"
          priority := "high"
          error := none
          timestamp := ts }
    else
      { healthy := false
        responseTime := some rt
        responseTimeScore := 0
        status := status
        version := "未知版本"
        priority := "high"
        error := none
        timestamp := ts }

/-- The `checkFn` built by `PriorityHealthCheck.fullCheck`.  On a 200
with a readable body the source computes
`healthy = text.toLowerCase().includes('subconverter') || response.status === 200`,
kept here literally; a body-read failure downgrades to unhealthy. -/
def fullCheckFn (score : Nat → Nat) (ts : String) : ProbeOutcome → HealthCheckResult
  | .fetchErr e =>
    { healthy := false
      responseTime := none
      responseTimeScore := 0
      status := 0
      version := "未知版本"
      priority := "normal"
      error := some e
      timestamp := ts }
  | .response rt status body =>
    if status == 200 then
      match body with
      | some text =>
        { healthy := hasInfix "subconverter".data (text.data.map Char.toLower)
                       || (status == 200)
          responseTime := some rt
          responseTimeScore := score rt
          status := status
          version := extractVersionFromText (.str text)
          priority := "normal"
          error := none
          timestamp := ts }
      | none =>
        { healthy := false
          responseTime := some rt
          responseTimeScore := score rt
          status := status
          version := "未知版本"
          priority := "normal"
          error := none
          timestamp := ts }
    else
      { healthy := false
        responseTime := some rt
        responseTimeScore := 0
        status := status
        version := "未知版本"
        priority := "normal"
        error := none
        timestamp := ts }

/-! ## The concurrency controller

`HealthCheckConcurrencyController` runs on a single-threaded event
loop, so its execution is a sequence of atomic steps on an explicit
state.  The events are the loop turns that touch the controller:

* `schedule tid now` — a `scheduleCheck` call (lazy stats reset check,
  then admit or enqueue).  `tid` stands for the task key
  `url-Date.now()`; the spec's data model declares keys unique per
  admitted task, which traces assume via `wfTrace`.
* `settle tid ok` — the awaited `checkFn` of a running task resolves
  (`ok`) or rejects; counters and the active-map entry are updated and
  the deferred 100 ms cleanup timer is scheduled (`pendingCleanup`).
* `cleanup tid now` — a scheduled cleanup timer fires: delete the
  active-map entry, bump `totalCompleted`, drain the queue.

`active` models the keys of the `activeChecks` map, `running` the check
functions currently executing (admitted, not yet settled), and
`pendingCleanup` the settled tasks whose 100 ms timer has not yet
fired.  `reset()` clears only the map, the queue and the stats: it
cancels neither running closures nor pending timers, so `running` and
`pendingCleanup` survive a reset exactly as in the source.  The
`lastReset` ISO string is not modelled (only its epoch twin
`lastResetTime` is ever read). -/

structure ControllerStats where
  totalStarted : Nat
  totalCompleted : Nat
  maxActive : Nat
  errors : Nat
  successes : Nat
  lastResetTime : Nat
deriving DecidableEq

structure QueueItem where
  tid : Nat
  addedTime : Nat
deriving DecidableEq

structure CState where
  maxConcurrent : Nat
  active : List Nat
  queue : List QueueItem
  running : List Nat
  pendingCleanup : List Nat
  stats : ControllerStats
deriving DecidableEq

/-- The constructor: empty containers, zeroed counters, stamp `t0`. -/
def zeroStats (t : Nat) : ControllerStats :=
  { totalStarted := 0
    totalCompleted := 0
    maxActive := 0
    errors := 0
    successes := 0
    lastResetTime := t }

def initController (maxC t0 : Nat) : CState :=
  { maxConcurrent := maxC
    active := []
    queue := []
    running := []
    pendingCleanup := []
    stats := zeroStats t0 }

/-- `reset()`: clear `activeChecks` and the queue, zero the stats and
stamp `lastResetTime`.  In-flight closures and pending timers are not
cancelled. -/
def applyReset (s : CState) (now : Nat) : CState :=
  { s with
    active := []
    queue := []
    stats := zeroStats now }

/-- The synchronous head of `task()`: `activeChecks.set(taskKey, ...)`
(insert-or-overwrite), `totalStarted++`, and the `maxActive` high-water
update against the post-insert map size; the check function starts
executing. -/
def startTask (s : CState) (tid : Nat) : CState :=
  let active' := if tid ∈ s.active then s.active else tid :: s.active
  { s with
    active := active'
    running := tid :: s.running
    stats := { s.stats with
               totalStarted := s.stats.totalStarted + 1
               maxActive := Nat.max s.stats.maxActive active'.length } }

/-- The admission half of `scheduleCheck`: run immediately below
capacity, else push onto the queue. -/
def admitOrQueue (s : CState) (tid now : Nat) : CState :=
  if s.active.length < s.maxConcurrent then startTask s tid
  else { s with queue := s.queue ++ [⟨tid, now⟩] }

/-- `scheduleCheck(url, checkFn, requestId)`: lazily reset when more
than five minutes have elapsed since `lastResetTime`, then admit or
enqueue.  (`now - lastResetTime` cannot be negative in practice; a
clock running backwards yields 0 here and a negative number in JS, and
neither exceeds the window.) -/
def scheduleCheck (s : CState) (tid now : Nat) : CState :=
  let s1 := if 5 * 60 * 1000 < now - s.stats.lastResetTime
            then applyReset s now else s
  if s1.active.length < s1.maxConcurrent then startTask s1 tid
  else { s1 with queue := s1.queue ++ [⟨tid, now⟩] }

/-- The settlement of a running task: remove it from `running`, bump
`successes` or `errors`, re-`set` its active-map entry with the
terminal status (an insert when the entry was wiped by a reset), and
schedule the deferred cleanup. -/
def settleTask (s : CState) (tid : Nat) (ok : Bool) : CState :=
  if tid ∈ s.running then
    { s with
      running := s.running.erase tid
      pendingCleanup := s.pendingCleanup ++ [tid]
      active := if tid ∈ s.active then s.active else tid :: s.active
      stats := if ok then { s.stats with successes := s.stats.successes + 1 }
               else { s.stats with errors := s.stats.errors + 1 } }
  else s

/-- The `while` loop of `processQueue`, running over the
already-filtered queue: while capacity remains, shift the oldest entry
and run it (its `task()` immediately occupies an active slot).  Returns
the final state and the task ids invoked by this drain. -/
def drainRun : CState → List QueueItem → CState × List Nat
  | s, [] => ({ s with queue := [] }, [])
  | s, i :: rest =>
    if s.active.length < s.maxConcurrent then
      let p := drainRun (startTask s i.tid) rest
      (p.1, i.tid :: p.2)
    else ({ s with queue := i :: rest }, [])

/-- `processQueue()`: drop entries 30 seconds old or older, then drain
FIFO while capacity remains. -/
def processQueue (s : CState) (now : Nat) : CState × List Nat :=
  drainRun s (s.queue.filter (fun i => now - i.addedTime < 30000))

/-- A cleanup timer firing: delete the active-map entry (a no-op if a
reset already wiped it), bump `totalCompleted`, drain the queue. -/
def cleanupTask (s : CState) (tid now : Nat) : CState :=
  if tid ∈ s.pendingCleanup then
    (processQueue
      { s with
        pendingCleanup := s.pendingCleanup.erase tid
        active := s.active.erase tid
        stats := { s.stats with totalCompleted := s.stats.totalCompleted + 1 } }
      now).1
  else s

inductive CEvent where
  | schedule : Nat → Nat → CEvent
  | settle : Nat → Bool → CEvent
  | cleanup : Nat → Nat → CEvent
deriving DecidableEq

def step (s : CState) : CEvent → CState
  | .schedule tid now => scheduleCheck s tid now
  | .settle tid ok => settleTask s tid ok
  | .cleanup tid now => cleanupTask s tid now

def runTrace (s : CState) (es : List CEvent) : CState := es.foldl step s

/-- Task keys are unique per task (spec data model): a `schedule` event
introduces a key unknown to every container. -/
def freshTid (s : CState) (tid : Nat) : Bool :=
  !(s.active.contains tid) && !(s.running.contains tid) &&
  !(s.pendingCleanup.contains tid) && !((s.queue.map QueueItem.tid).contains tid)

/-- Well-formedness guard of one event against a state: scheduled keys
are fresh. -/
def evGuardWf (s : CState) : CEvent → Bool
  | .schedule tid _ => freshTid s tid
  | .settle _ _ => true
  | .cleanup _ _ => true

def wfTrace (s : CState) : List CEvent → Bool
  | [] => true
  | e :: es => evGuardWf s e && wfTrace (step s e) es

/-- Guard stating that one event does not trigger the lazy five-minute
reset in the given state. -/
def evGuardRF (s : CState) : CEvent → Bool
  | .schedule _ now => decide (now - s.stats.lastResetTime ≤ 5 * 60 * 1000)
  | .settle _ _ => true
  | .cleanup _ _ => true

/-- No event of the trace triggers the lazy five-minute reset. -/
def resetFree (s : CState) : List CEvent → Bool
  | [] => true
  | e :: es => evGuardRF s e && resetFree (step s e) es

/-! ## The resilient notifier

`ResilientTelegramNotifier.sendNotification` performs up to
`maxRetries` delivery attempts.  A delivery attempt either succeeds or
raises (non-ok HTTP, Telegram-level rejection, or a thrown transport
error); the per-attempt outcome is supplied by an oracle.  The
observable actions — attempts, backoff sleeps, the fallback delivery
and the durable-store write — are collected as an event list alongside
the returned outcome object. -/

inductive NotifyEvent where
  | attemptSend : Nat → NotifyEvent
  | sleep : Nat → NotifyEvent
  | fallback : NotifyEvent
  | saveDB : Bool → NotifyEvent
deriving DecidableEq

structure NotifierCfg where
  maxRetries : Nat
  retryDelay : Nat
  fallbackEnabled : Bool
deriving DecidableEq

structure NotifyOutcome where
  success : Bool
  attempt : Option Nat
  error : Option String
  usedFallback : Option Bool
  reason : Option String
deriving DecidableEq

/-- The `for (let attempt = 1; attempt <= maxRetries; attempt++)` body:
on success, persist and return; on failure before the last attempt,
sleep `retryDelay * 2 ^ (attempt - 1)` and continue; on the last
attempt, run the fallback (when enabled), persist the failure and
return. -/
def attemptLoop (cfg : NotifierCfg) (oracle : Nat → Except String Unit)
    (attempt : Nat) : List NotifyEvent × NotifyOutcome :=
  match oracle attempt with
  | .ok _ =>
    ([.attemptSend attempt, .saveDB true],
     { success := true
       attempt := some attempt
       error := none
       usedFallback := none
       reason := none })
  | .error e =>
    if h : attempt < cfg.maxRetries then
      let rest := attemptLoop cfg oracle (attempt + 1)
      (.attemptSend attempt :: .sleep (cfg.retryDelay * 2 ^ (attempt - 1)) :: rest.1,
       rest.2)
    else
      ([.attemptSend attempt] ++
         (if cfg.fallbackEnabled then [.fallback] else []) ++ [.saveDB false],
       { success := false
         attempt := some attempt
         error := some e
         usedFallback := some cfg.fallbackEnabled
         reason := none })
termination_by cfg.maxRetries - attempt
decreasing_by omega

/-- `sendNotification`: credential gate, per-type toggle gate, then the
retry loop starting at attempt 1. -/
def sendNotification (cfg : NotifierCfg) (hasToken hasChatId enabled : Bool)
    (oracle : Nat → Except String Unit) : List NotifyEvent × NotifyOutcome :=
  if !hasToken || !hasChatId then
    ([], { success := false
           attempt := none
           error := none
           usedFallback := none
           reason := some "配置不完整" })
  else if !enabled then
    ([], { success := false
           attempt := none
           error := none
           usedFallback := none
           reason := some "通知类型已禁用" })
  else
    attemptLoop cfg oracle 1

/-! ## Structural lemmas about the matchers

Two properties drive the safety claims about version extraction: a
matcher consumes a prefix of its input (`PMSplits`), and every
successful match of the version patterns begins with a non-whitespace
character (`PMGood`), which makes the trimmed match non-empty. -/

def PMSplits (pm : PM) : Prop := ∀ cs m r, pm cs = some (m, r) → m ++ r = cs

def PMGood (pm : PM) : Prop :=
  ∀ cs m r, pm cs = some (m, r) → ∃ c t, m = c :: t ∧ c.isWhitespace = false

lemma pmChar_splits (p : Char → Bool) : PMSplits (pmChar p) := by
  intro cs m r h
  cases cs with
  | nil => simp [pmChar] at h
  | cons c rest =>
    by_cases hc : p c <;> simp [pmChar, hc] at h
    obtain ⟨h1, h2⟩ := h
    subst h1; subst h2; rfl

lemma pmMany1_splits (p : Char → Bool) : PMSplits (pmMany1 p) := by
  intro cs m r h
  by_cases he : (cs.takeWhile p).isEmpty <;> simp [pmMany1, he] at h
  obtain ⟨h1, h2⟩ := h
  subst h1; subst h2
  exact List.takeWhile_append_dropWhile p cs

lemma pmSeq_splits {a b : PM} (ha : PMSplits a) (hb : PMSplits b) :
    PMSplits (pmSeq a b) := by
  intro cs m r h
  cases h1 : a cs with
  | none => simp [pmSeq, h1] at h
  | some p1 =>
    obtain ⟨m1, r1⟩ := p1
    cases h2 : b r1 with
    | none => simp [pmSeq, h1, h2] at h
    | some p2 =>
      obtain ⟨m2, r2⟩ := p2
      simp [pmSeq, h1, h2] at h
      obtain ⟨hm, hr⟩ := h
      subst hm; subst hr
      rw [List.append_assoc, hb r1 m2 r2 h2]
      exact ha cs m1 r1 h1

lemma pmOpt_splits {a : PM} (ha : PMSplits a) : PMSplits (pmOpt a) := by
  intro cs m r h
  cases h1 : a cs with
  | none => simp [pmOpt, h1] at h; obtain ⟨hm, hr⟩ := h; subst hm; subst hr; rfl
  | some p1 =>
    obtain ⟨m1, r1⟩ := p1
    simp [pmOpt, h1] at h
    obtain ⟨hm, hr⟩ := h
    subst hm; subst hr
    exact ha cs m1 r1 h1

lemma pmLitCI_splits : ∀ pat : List Char, PMSplits (pmLitCI pat)
  | [] => by intro cs m r h; simp [pmLitCI] at h; obtain ⟨hm, hr⟩ := h; subst hm; subst hr; rfl
  | p :: ps => pmSeq_splits (pmChar_splits _) (pmLitCI_splits ps)

/-- The four whitespace characters are fixed by `Char.toLower`. -/
lemma toLower_of_ws {x : Char} (h : x.isWhitespace = true) : x.toLower = x := by
  simp only [Char.isWhitespace, Bool.or_eq_true, decide_eq_true_eq] at h
  rcases h with ((h | h) | h) | h <;> subst h <;> decide

lemma isDigit_not_ws {x : Char} (h : x.isDigit = true) : x.isWhitespace = false := by
  cases hw : x.isWhitespace with
  | false => rfl
  | true =>
    exfalso
    simp only [Char.isWhitespace, Bool.or_eq_true, decide_eq_true_eq] at hw
    rcases hw with ((hw | hw) | hw) | hw <;> subst hw <;> exact absurd h (by decide)

lemma charCI_pred_not_ws {c x : Char} (hc : c.isWhitespace = false)
    (h : (x.toLower == c) = true) : x.isWhitespace = false := by
  cases hw : x.isWhitespace with
  | false => rfl
  | true =>
    exfalso
    rw [toLower_of_ws hw, beq_iff_eq] at h
    subst h
    rw [hw] at hc
    exact Bool.noConfusion hc

lemma pmChar_good {p : Char → Bool}
    (hp : ∀ x, p x = true → x.isWhitespace = false) : PMGood (pmChar p) := by
  intro cs m r h
  cases cs with
  | nil => simp [pmChar] at h
  | cons c rest =>
    by_cases hc : p c <;> simp [pmChar, hc] at h
    exact ⟨c, [], h.1.symm, hp c hc⟩

lemma pmMany1_good {p : Char → Bool}
    (hp : ∀ x, p x = true → x.isWhitespace = false) : PMGood (pmMany1 p) := by
  intro cs m r h
  by_cases he : (cs.takeWhile p).isEmpty <;> simp [pmMany1, he] at h
  obtain ⟨h1, _⟩ := h
  cases cs with
  | nil => simp at he
  | cons c rest =>
    rw [List.takeWhile_cons] at he h1
    by_cases hc : p c <;> simp [hc] at he h1
    exact ⟨c, rest.takeWhile p, h1.symm, hp c hc⟩

lemma pmSeq_good_left {a b : PM} (ha : PMGood a) : PMGood (pmSeq a b) := by
  intro cs m r h
  cases h1 : a cs with
  | none => simp [pmSeq, h1] at h
  | some p1 =>
    obtain ⟨m1, r1⟩ := p1
    cases h2 : b r1 with
    | none => simp [pmSeq, h1, h2] at h
    | some p2 =>
      obtain ⟨m2, r2⟩ := p2
      simp [pmSeq, h1, h2] at h
      obtain ⟨hm, _⟩ := h
      obtain ⟨c, t, hct, hws⟩ := ha cs m1 r1 h1
      exact ⟨c, t ++ m2, by rw [← hm, hct]; rfl, hws⟩

lemma charCI_good {c : Char} (hc : c.isWhitespace = false) : PMGood (charCI c) :=
  pmChar_good (fun _ hx => charCI_pred_not_ws hc hx)

lemma pmLitCI_good {c : Char} (rest : List Char) (hc : c.isWhitespace = false) :
    PMGood (pmLitCI (c :: rest)) :=
  pmSeq_good_left (charCI_good hc)

lemma subconvPM_good : PMGood subconvPM := by
  have : subconvPM = pmLitCI ('s' :: "ubconverter".data) := rfl
  rw [this]
  exact pmLitCI_good _ (by decide)

lemma semverPM_good : PMGood semverPM :=
  pmSeq_good_left (pmMany1_good fun _ h => isDigit_not_ws h)

lemma versionPattern1_good : PMGood versionPattern1 := pmSeq_good_left subconvPM_good

lemma versionPattern2_good : PMGood versionPattern2 :=
  pmSeq_good_left (charCI_good (by decide))

lemma versionPattern3_good : PMGood versionPattern3 := pmSeq_good_left subconvPM_good

lemma versionPattern4_good : PMGood versionPattern4 := pmSeq_good_left semverPM_good

lemma versionPattern5_good : PMGood versionPattern5 := semverPM_good

lemma versionPattern6_good : PMGood versionPattern6 := subconvPM_good

lemma subconvPM_splits : PMSplits subconvPM := pmLitCI_splits _

lemma semverPM_splits : PMSplits semverPM :=
  pmSeq_splits (pmMany1_splits _) (pmSeq_splits (pmChar_splits _)
    (pmSeq_splits (pmMany1_splits _) (pmSeq_splits (pmChar_splits _)
      (pmMany1_splits _))))

lemma versionPattern1_splits : PMSplits versionPattern1 :=
  pmSeq_splits subconvPM_splits (pmSeq_splits (pmMany1_splits _)
    (pmSeq_splits (pmChar_splits _) (pmSeq_splits semverPM_splits
      (pmSeq_splits (pmChar_splits _) (pmSeq_splits (pmMany1_splits _)
        (pmOpt_splits (pmSeq_splits (pmMany1_splits _) (pmLitCI_splits _))))))))

lemma versionPattern2_splits : PMSplits versionPattern2 :=
  pmSeq_splits (pmChar_splits _) (pmSeq_splits semverPM_splits
    (pmSeq_splits (pmChar_splits _) (pmMany1_splits _)))

lemma versionPattern3_splits : PMSplits versionPattern3 :=
  pmSeq_splits subconvPM_splits (pmSeq_splits (pmMany1_splits _)
    (pmSeq_splits (pmChar_splits _) semverPM_splits))

lemma versionPattern4_splits : PMSplits versionPattern4 :=
  pmSeq_splits semverPM_splits (pmSeq_splits (pmChar_splits _) (pmMany1_splits _))

lemma versionPattern5_splits : PMSplits versionPattern5 := semverPM_splits

lemma versionPattern6_splits : PMSplits versionPattern6 := subconvPM_splits

/-- A matcher that consumes a prefix and always yields a non-empty
match cannot match the empty input. -/
lemma pm_nil_none {pm : PM} (hg : PMGood pm) (hs : PMSplits pm) : pm [] = none := by
  cases h : pm [] with
  | none => rfl
  | some p =>
    obtain ⟨m, r⟩ := p
    obtain ⟨hm, _⟩ := List.append_eq_nil.mp (hs [] m r h)
    obtain ⟨c, t, hct, _⟩ := hg [] m r h
    rw [hm] at hct
    exact absurd hct (by simp)

lemma findAt_good {pm : PM} (hg : PMGood pm) :
    ∀ cs m, findAt pm cs = some m →
      ∃ c t, m = c :: t ∧ c.isWhitespace = false := by
  intro cs
  induction cs with
  | nil =>
    intro m h
    cases hp : pm [] with
    | none => simp [findAt, hp] at h
    | some p =>
      obtain ⟨m1, r1⟩ := p
      simp [findAt, hp] at h
      subst h
      exact hg [] m1 r1 hp
  | cons c rest ih =>
    intro m h
    cases hp : pm (c :: rest) with
    | none =>
      rw [findAt, hp] at h
      exact ih m h
    | some p =>
      obtain ⟨m1, r1⟩ := p
      rw [findAt, hp] at h
      injection h with h2
      exact h2 ▸ hg _ m1 r1 hp

lemma findAt_nil_none {pm : PM} (hg : PMGood pm) (hs : PMSplits pm) :
    findAt pm [] = none := by
  simp [findAt, pm_nil_none hg hs]

lemma matchPatterns_good {t : List Char} {m : List Char}
    (h : matchPatterns t = some m) :
    ∃ c t2, m = c :: t2 ∧ c.isWhitespace = false := by
  cases h1 : findAt versionPattern1 t with
  | some m1 =>
    simp only [matchPatterns, h1, Option.some.injEq] at h
    exact h ▸ findAt_good versionPattern1_good t _ h1
  | none =>
  cases h2 : findAt versionPattern2 t with
  | some m2 =>
    simp only [matchPatterns, h1, h2, Option.some.injEq] at h
    exact h ▸ findAt_good versionPattern2_good t _ h2
  | none =>
  cases h3 : findAt versionPattern3 t with
  | some m3 =>
    simp only [matchPatterns, h1, h2, h3, Option.some.injEq] at h
    exact h ▸ findAt_good versionPattern3_good t _ h3
  | none =>
  cases h4 : findAt versionPattern4 t with
  | some m4 =>
    simp only [matchPatterns, h1, h2, h3, h4, Option.some.injEq] at h
    exact h ▸ findAt_good versionPattern4_good t _ h4
  | none =>
  cases h5 : findAt versionPattern5 t with
  | some m5 =>
    simp only [matchPatterns, h1, h2, h3, h4, h5, Option.some.injEq] at h
    exact h ▸ findAt_good versionPattern5_good t _ h5
  | none =>
    simp only [matchPatterns, h1, h2, h3, h4, h5] at h
    exact findAt_good versionPattern6_good t _ h

lemma matchPatterns_nil : matchPatterns [] = none := by
  simp only [matchPatterns,
    findAt_nil_none versionPattern1_good versionPattern1_splits,
    findAt_nil_none versionPattern2_good versionPattern2_splits,
    findAt_nil_none versionPattern3_good versionPattern3_splits,
    findAt_nil_none versionPattern4_good versionPattern4_splits,
    findAt_nil_none versionPattern5_good versionPattern5_splits,
    findAt_nil_none versionPattern6_good versionPattern6_splits]

/-- Trimming a string whose first character is not whitespace yields a
non-empty string. -/
lemma trimJS_ne_nil {c : Char} {t : List Char} (hc : c.isWhitespace = false) :
    trimJS (c :: t) ≠ [] := by
  rw [trimJS]
  rw [List.dropWhile_cons]
  simp only [hc, Bool.false_eq_true, if_false]
  intro h
  rw [List.reverse_eq_nil_iff] at h
  rw [List.dropWhile_eq_nil_iff] at h
  have := h c (by simp)
  rw [hc] at this
  exact absurd this (by simp)

lemma normalizeVersion_ne_nil {v : List Char} (hv : v ≠ []) :
    normalizeVersion v ≠ [] := by
  rw [normalizeVersion]
  intro hcontra
  split at hcontra
  · exact hv hcontra
  · split at hcontra
    · exact absurd (List.append_eq_nil.mp hcontra).1 (by decide)
    · split at hcontra
      · exact absurd (List.append_eq_nil.mp hcontra).1 (by decide)
      · exact hv hcontra

/-- The body of `extractVersionFromText` never returns the empty
character list. -/
lemma extractChars_ne_nil (raw : List Char) : extractChars raw ≠ [] := by
  rw [extractChars]
  cases hm : matchPatterns (trimJS raw) with
  | some m =>
    simp only
    obtain ⟨c, t2, hct, hws⟩ := matchPatterns_good hm
    subst hct
    exact normalizeVersion_ne_nil (trimJS_ne_nil hws)
  | none =>
    simp only
    by_cases hlen : (trimJS raw).length ≤ 50
    · simp only [hlen, if_true]
      by_cases he : (trimJS raw).isEmpty
      · simp [he]
      · simp only [he, Bool.false_eq_true, if_false]
        intro h
        rw [h] at he
        exact he rfl
    · simp only [hlen, if_false]
      cases hf : (splitWS (trimJS raw)).find? qualifiesWord with
      | some w =>
        simp only [hf]
        intro hcontra
        exact absurd (List.append_eq_nil.mp hcontra).1 (by decide)
      | none => simp [hf]

/-! ## Controller invariants

The inductive invariant behind the admission bound: the keys of the
`activeChecks` map are exactly the running and cleanup-pending tasks
(as a multiset), the queue's keys are distinct from each other and from
the map, and the map never exceeds `maxConcurrent`.  It is preserved by
every event of a well-formed trace that triggers no lazy reset. -/

def InvC (s : CState) : Prop :=
  s.active.Perm (s.running ++ s.pendingCleanup) ∧
  (s.running ++ s.pendingCleanup).Nodup ∧
  (s.queue.map QueueItem.tid).Nodup ∧
  (∀ i ∈ s.queue, i.tid ∉ s.active) ∧
  s.active.length ≤ s.maxConcurrent

lemma freshTid_spec {s : CState} {tid : Nat} (h : freshTid s tid = true) :
    tid ∉ s.active ∧ tid ∉ s.running ∧ tid ∉ s.pendingCleanup ∧
      ∀ x ∈ s.queue, x.tid ≠ tid := by
  simp [freshTid] at h
  exact ⟨h.1.1.1, h.1.1.2, h.1.2, h.2⟩

lemma startTask_active_of_not_mem {s : CState} {tid : Nat} (h : tid ∉ s.active) :
    (startTask s tid).active = tid :: s.active := by
  simp [startTask, h]

lemma scheduleCheck_no_reset {s : CState} {tid now : Nat}
    (h : now - s.stats.lastResetTime ≤ 5 * 60 * 1000) :
    scheduleCheck s tid now = admitOrQueue s tid now := by
  rw [scheduleCheck, admitOrQueue]
  have h2 : ¬ (5 * 60 * 1000 < now - s.stats.lastResetTime) := by omega
  simp only [h2, if_false]

lemma InvC_init (maxC t0 : Nat) : InvC (initController maxC t0) := by
  refine ⟨by simp [initController], by simp [initController],
    by simp [initController], by simp [initController], by simp [initController]⟩

/-- Admitting a fresh task below capacity preserves the invariant. -/
lemma InvC_startTask {s : CState} {tid : Nat} (hInv : InvC s)
    (hfresh : tid ∉ s.active) (hq2 : ∀ x ∈ s.queue, x.tid ≠ tid)
    (hcap : s.active.length < s.maxConcurrent) :
    InvC (startTask s tid) := by
  obtain ⟨hperm, hnd, hq, hdisj, _⟩ := hInv
  have hact := startTask_active_of_not_mem hfresh
  have hnotrp : tid ∉ s.running ++ s.pendingCleanup :=
    fun hmem => hfresh (hperm.mem_iff.mpr hmem)
  refine ⟨?_, ?_, ?_, ?_, ?_⟩
  · rw [hact]
    show (tid :: s.active).Perm ((tid :: s.running) ++ s.pendingCleanup)
    exact hperm.cons tid
  · exact List.Nodup.cons hnotrp hnd
  · exact hq
  · intro i hi
    rw [hact]
    intro hmem
    rcases List.mem_cons.mp hmem with h1 | h1
    · exact hq2 i hi h1
    · exact hdisj i hi h1
  · rw [hact]
    show (tid :: s.active).length ≤ s.maxConcurrent
    simpa using hcap

/-- Enqueueing a fresh task preserves the invariant. -/
lemma InvC_enqueue {s : CState} {tid now : Nat} (hInv : InvC s)
    (hfreshA : tid ∉ s.active) (hfreshQ : ∀ x ∈ s.queue, x.tid ≠ tid) :
    InvC { s with queue := s.queue ++ [⟨tid, now⟩] } := by
  obtain ⟨hperm, hnd, hq, hdisj, hb⟩ := hInv
  refine ⟨hperm, hnd, ?_, ?_, hb⟩
  · rw [List.map_append]
    rw [List.nodup_append]
    refine ⟨hq, by simp, ?_⟩
    intro a ha hb2
    simp at hb2
    subst hb2
    obtain ⟨x, hx, hx2⟩ := List.mem_map.mp ha
    exact hfreshQ x hx hx2
  · intro i hi
    rcases List.mem_append.mp hi with h1 | h1
    · exact hdisj i h1
    · simp at h1
      subst h1
      exact hfreshA
/-- The queue drain preserves the invariant, for any pending list whose
keys are distinct and disjoint from the active map; the drained state's
queue is what remains of that list. -/
lemma drainRun_inv : ∀ (q : List QueueItem) (s : CState),
    s.active.Perm (s.running ++ s.pendingCleanup) →
    (s.running ++ s.pendingCleanup).Nodup →
    (q.map QueueItem.tid).Nodup →
    (∀ i ∈ q, i.tid ∉ s.active) →
    s.active.length ≤ s.maxConcurrent →
    InvC (drainRun s q).1
  | [], s, hperm, hnd, _, _, hb =>
    ⟨hperm, hnd, by simp [drainRun], by simp [drainRun], hb⟩
  | i :: rest, s, hperm, hnd, hq, hdisj, hb => by
    rw [drainRun]
    by_cases hcap : s.active.length < s.maxConcurrent
    · simp only [hcap, if_true]
      have hifresh : i.tid ∉ s.active := hdisj i (List.mem_cons_self i rest)
      have hact := startTask_active_of_not_mem hifresh
      have hnotrp : i.tid ∉ s.running ++ s.pendingCleanup :=
        fun hmem => hifresh (hperm.mem_iff.mpr hmem)
      have hq' : (rest.map QueueItem.tid).Nodup := by
        rw [List.map_cons] at hq
        exact hq.of_cons
      have hhead : i.tid ∉ rest.map QueueItem.tid := by
        rw [List.map_cons] at hq
        exact (List.nodup_cons.mp hq).1
      refine drainRun_inv rest (startTask s i.tid) ?_ ?_ hq' ?_ ?_
      · rw [hact]
        show (i.tid :: s.active).Perm ((i.tid :: s.running) ++ s.pendingCleanup)
        exact hperm.cons i.tid
      · exact List.Nodup.cons hnotrp hnd
      · intro j hj
        rw [hact]
        intro hmem
        rcases List.mem_cons.mp hmem with h1 | h1
        · exact hhead (h1 ▸ List.mem_map_of_mem QueueItem.tid hj)
        · exact hdisj j (List.mem_cons_of_mem i hj) h1
      · rw [hact]
        show (i.tid :: s.active).length ≤ s.maxConcurrent
        simpa using hcap
    · simp only [hcap, if_false]
      exact ⟨hperm, hnd, hq, hdisj, hb⟩

/-- Characterisation of the drain: exactly the first
`maxConcurrent - |active|` fresh entries are invoked, in queue (FIFO)
order, and the rest remain queued in order. -/
lemma drainRun_take_drop : ∀ (q : List QueueItem) (s : CState),
    (∀ i ∈ q, i.tid ∉ s.active) →
    (q.map QueueItem.tid).Nodup →
    (drainRun s q).2 = (q.take (s.maxConcurrent - s.active.length)).map QueueItem.tid ∧
    (drainRun s q).1.queue = q.drop (s.maxConcurrent - s.active.length)
  | [], s, _, _ => by simp [drainRun]
  | i :: rest, s, hdisj, hq => by
    rw [drainRun]
    by_cases hcap : s.active.length < s.maxConcurrent
    · simp only [hcap, if_true]
      have hifresh : i.tid ∉ s.active := hdisj i (List.mem_cons_self i rest)
      have hact := startTask_active_of_not_mem hifresh
      have hlen : (startTask s i.tid).active.length = s.active.length + 1 := by
        rw [hact]; rfl
      have hq' : (rest.map QueueItem.tid).Nodup := by
        rw [List.map_cons] at hq
        exact hq.of_cons
      have hhead : i.tid ∉ rest.map QueueItem.tid := by
        rw [List.map_cons] at hq
        exact (List.nodup_cons.mp hq).1
      have hdisj' : ∀ j ∈ rest, j.tid ∉ (startTask s i.tid).active := by
        intro j hj
        rw [hact]
        intro hmem
        rcases List.mem_cons.mp hmem with h1 | h1
        · exact hhead (h1 ▸ List.mem_map_of_mem QueueItem.tid hj)
        · exact hdisj j (List.mem_cons_of_mem i hj) h1
      obtain ⟨ih1, ih2⟩ := drainRun_take_drop rest (startTask s i.tid) hdisj' hq'
      have hmaxC : (startTask s i.tid).maxConcurrent = s.maxConcurrent := rfl
      have hk : s.maxConcurrent - s.active.length =
          (s.maxConcurrent - (s.active.length + 1)) + 1 := by omega
      constructor
      · show i.tid :: (drainRun (startTask s i.tid) rest).2 = _
        rw [ih1, hmaxC, hlen, hk]
        simp
      · show (drainRun (startTask s i.tid) rest).1.queue = _
        rw [ih2, hmaxC, hlen, hk]
        simp
    · simp only [hcap, if_false]
      have hk : s.maxConcurrent - s.active.length = 0 := by omega
      simp [hk]

/-- Every task running after a drain was either running before it or
was invoked by it. -/
lemma drainRun_running_sub : ∀ (q : List QueueItem) (s : CState) (x : Nat),
    x ∈ (drainRun s q).1.running → x ∈ s.running ∨ x ∈ (drainRun s q).2
  | [], _, _, hx => Or.inl hx
  | i :: rest, s, x, hx => by
    rw [drainRun] at hx ⊢
    by_cases hcap : s.active.length < s.maxConcurrent
    · simp only [hcap, if_true] at hx ⊢
      rcases drainRun_running_sub rest (startTask s i.tid) x hx with h1 | h1
      · rcases List.mem_cons.mp h1 with h2 | h2
        · exact Or.inr (h2 ▸ List.mem_cons_self _ _)
        · exact Or.inl h2
      · exact Or.inr (List.mem_cons_of_mem _ h1)
    · simp only [hcap, if_false] at hx ⊢
      exact Or.inl hx

lemma InvC_settle {s : CState} {tid : Nat} {ok : Bool} (hInv : InvC s) :
    InvC (settleTask s tid ok) := by
  obtain ⟨hperm, hnd, hq, hdisj, hb⟩ := hInv
  by_cases htidr : tid ∈ s.running
  · have htida : tid ∈ s.active := hperm.mem_iff.mpr (List.mem_append_left _ htidr)
    have ha : (settleTask s tid ok).active = s.active := by
      simp [settleTask, htidr, htida]
    have hr : (settleTask s tid ok).running = s.running.erase tid := by
      simp [settleTask, htidr]
    have hp : (settleTask s tid ok).pendingCleanup = s.pendingCleanup ++ [tid] := by
      simp [settleTask, htidr]
    have hqe : (settleTask s tid ok).queue = s.queue := by
      simp [settleTask, htidr]
    have hmc : (settleTask s tid ok).maxConcurrent = s.maxConcurrent := by
      simp [settleTask, htidr]
    have hpermClosed :
        (s.running.erase tid ++ (s.pendingCleanup ++ [tid])).Perm
          (s.running ++ s.pendingCleanup) := by
      have h1 : (s.running.erase tid ++ (s.pendingCleanup ++ [tid])).Perm
          ((s.running.erase tid ++ s.pendingCleanup) ++ [tid]) := by
        rw [List.append_assoc]
      have h2 : ((s.running.erase tid ++ s.pendingCleanup) ++ [tid]).Perm
          (tid :: (s.running.erase tid ++ s.pendingCleanup)) :=
        List.perm_append_singleton _ _
      have h3 : (tid :: (s.running.erase tid ++ s.pendingCleanup)).Perm
          (s.running ++ s.pendingCleanup) := by
        show ((tid :: s.running.erase tid) ++ s.pendingCleanup).Perm
          (s.running ++ s.pendingCleanup)
        exact (List.perm_cons_erase htidr).symm.append_right _
      exact (h1.trans h2).trans h3
    refine ⟨?_, ?_, ?_, ?_, ?_⟩
    · rw [ha, hr, hp]
      exact hperm.trans hpermClosed.symm
    · rw [hr, hp]
      exact hpermClosed.symm.nodup hnd
    · rw [hqe]; exact hq
    · rw [hqe, ha]; exact hdisj
    · rw [ha, hmc]; exact hb
  · rw [settleTask, if_neg htidr]
    exact ⟨hperm, hnd, hq, hdisj, hb⟩

lemma InvC_cleanup {s : CState} {tid now : Nat} (hInv : InvC s) :
    InvC (cleanupTask s tid now) := by
  obtain ⟨hperm, hnd, hq, hdisj, hb⟩ := hInv
  by_cases htidp : tid ∈ s.pendingCleanup
  · rw [cleanupTask, if_pos htidp, processQueue]
    obtain ⟨hndr, hndp, hdisjrp⟩ := List.nodup_append.mp hnd
    have htidnr : tid ∉ s.running := fun hmem => hdisjrp hmem htidp
    have hpermE : (s.active.erase tid).Perm
        (s.running ++ s.pendingCleanup.erase tid) := by
      have := hperm.erase tid
      rwa [List.erase_append_right _ htidnr] at this
    have hndE : (s.running ++ s.pendingCleanup.erase tid).Nodup :=
      List.Nodup.sublist
        ((List.erase_sublist tid s.pendingCleanup).append_left s.running) hnd
    apply drainRun_inv
    · exact hpermE
    · exact hndE
    · exact List.Nodup.sublist
        (((List.filter_sublist s.queue)).map QueueItem.tid) hq
    · intro i hi hmem
      exact hdisj i (List.mem_of_mem_filter hi) (List.mem_of_mem_erase hmem)
    · exact le_trans (List.erase_sublist tid s.active).length_le hb
  · rw [cleanupTask, if_neg htidp]
    exact ⟨hperm, hnd, hq, hdisj, hb⟩

lemma InvC_schedule {s : CState} {tid now : Nat} (hInv : InvC s)
    (hfresh : freshTid s tid = true)
    (hrf : now - s.stats.lastResetTime ≤ 5 * 60 * 1000) :
    InvC (scheduleCheck s tid now) := by
  rw [scheduleCheck_no_reset hrf, admitOrQueue]
  obtain ⟨hfa, _, _, hfq⟩ := freshTid_spec hfresh
  by_cases hcap : s.active.length < s.maxConcurrent
  · rw [if_pos hcap]
    exact InvC_startTask hInv hfa hfq hcap
  · rw [if_neg hcap]
    exact InvC_enqueue hInv hfa hfq

lemma InvC_step {s : CState} {e : CEvent} (hInv : InvC s)
    (hwf : evGuardWf s e = true) (hrf : evGuardRF s e = true) :
    InvC (step s e) := by
  cases e with
  | schedule tid now =>
    rw [evGuardWf] at hwf
    rw [evGuardRF, decide_eq_true_eq] at hrf
    exact InvC_schedule hInv hwf hrf
  | settle tid ok => exact InvC_settle hInv
  | cleanup tid now => exact InvC_cleanup hInv

lemma InvC_runTrace : ∀ (es : List CEvent) (s : CState), InvC s →
    wfTrace s es = true → resetFree s es = true → InvC (runTrace s es)
  | [], _, h, _, _ => h
  | e :: es, s, h, hwf, hrf => by
    rw [wfTrace, Bool.and_eq_true] at hwf
    rw [resetFree, Bool.and_eq_true] at hrf
    exact InvC_runTrace es (step s e) (InvC_step h hwf.1 hrf.1) hwf.2 hrf.2

lemma drainRun_maxC : ∀ (q : List QueueItem) (s : CState),
    (drainRun s q).1.maxConcurrent = s.maxConcurrent
  | [], _ => rfl
  | i :: rest, s => by
    rw [drainRun]
    by_cases hcap : s.active.length < s.maxConcurrent
    · rw [if_pos hcap]
      exact drainRun_maxC rest (startTask s i.tid)
    · rw [if_neg hcap]

lemma step_maxC (s : CState) (e : CEvent) :
    (step s e).maxConcurrent = s.maxConcurrent := by
  cases e with
  | schedule tid now =>
    show (scheduleCheck s tid now).maxConcurrent = s.maxConcurrent
    simp only [scheduleCheck]
    split <;> split <;> rfl
  | settle tid ok =>
    show (settleTask s tid ok).maxConcurrent = s.maxConcurrent
    rw [settleTask]
    split <;> rfl
  | cleanup tid now =>
    show (cleanupTask s tid now).maxConcurrent = s.maxConcurrent
    rw [cleanupTask]
    split
    · rw [processQueue, drainRun_maxC]
    · rfl

lemma runTrace_maxC : ∀ (es : List CEvent) (s : CState),
    (runTrace s es).maxConcurrent = s.maxConcurrent
  | [], _ => rfl
  | e :: es, s => by
    show (runTrace (step s e) es).maxConcurrent = s.maxConcurrent
    rw [runTrace_maxC es (step s e), step_maxC]

/-! ## Stats invariants

Within a reset-free stretch of execution, every cleanup that bumps
`totalCompleted` belongs to a task whose admission bumped
`totalStarted` in the same stretch, tracked by the running and
cleanup-pending populations. -/

def statsInv (s : CState) : Prop :=
  s.stats.totalCompleted + s.running.length + s.pendingCleanup.length ≤
    s.stats.totalStarted

lemma statsInv_init (maxC t0 : Nat) : statsInv (initController maxC t0) := by
  simp [statsInv, initController, zeroStats]

lemma drainRun_stats : ∀ (q : List QueueItem) (s : CState), statsInv s →
    statsInv (drainRun s q).1 ∧
      s.stats.totalStarted ≤ (drainRun s q).1.stats.totalStarted
  | [], s, h => ⟨h, le_refl _⟩
  | i :: rest, s, h => by
    rw [drainRun]
    by_cases hcap : s.active.length < s.maxConcurrent
    · rw [if_pos hcap]
      simp only [statsInv] at h
      have hst : statsInv (startTask s i.tid) := by
        show s.stats.totalCompleted + (i.tid :: s.running).length +
          s.pendingCleanup.length ≤ s.stats.totalStarted + 1
        simp only [List.length_cons]
        omega
      obtain ⟨ih1, ih2⟩ := drainRun_stats rest (startTask s i.tid) hst
      refine ⟨ih1, le_trans ?_ ih2⟩
      show s.stats.totalStarted ≤ s.stats.totalStarted + 1
      omega
    · rw [if_neg hcap]
      exact ⟨h, le_refl _⟩

lemma step_stats {s : CState} {e : CEvent} (hrf : evGuardRF s e = true)
    (h : statsInv s) :
    statsInv (step s e) ∧
      s.stats.totalStarted ≤ (step s e).stats.totalStarted := by
  cases e with
  | schedule tid now =>
    rw [evGuardRF, decide_eq_true_eq] at hrf
    have hs : step s (.schedule tid now) = admitOrQueue s tid now :=
      scheduleCheck_no_reset hrf
    rw [hs, admitOrQueue]
    by_cases hcap : s.active.length < s.maxConcurrent
    · rw [if_pos hcap]
      simp only [statsInv] at h
      constructor
      · show s.stats.totalCompleted + (tid :: s.running).length +
          s.pendingCleanup.length ≤ s.stats.totalStarted + 1
        simp only [List.length_cons]
        omega
      · show s.stats.totalStarted ≤ s.stats.totalStarted + 1
        omega
    · rw [if_neg hcap]
      exact ⟨h, le_refl _⟩
  | settle tid ok =>
    show statsInv (settleTask s tid ok) ∧
      s.stats.totalStarted ≤ (settleTask s tid ok).stats.totalStarted
    by_cases htid : tid ∈ s.running
    · have hlen := List.length_erase_of_mem htid
      have hpos : 0 < s.running.length := List.length_pos_of_mem htid
      have e1 : (settleTask s tid ok).stats.totalCompleted =
          s.stats.totalCompleted := by
        cases ok <;> simp [settleTask, htid]
      have e2 : (settleTask s tid ok).stats.totalStarted =
          s.stats.totalStarted := by
        cases ok <;> simp [settleTask, htid]
      have e3 : (settleTask s tid ok).running = s.running.erase tid := by
        simp [settleTask, htid]
      have e4 : (settleTask s tid ok).pendingCleanup =
          s.pendingCleanup ++ [tid] := by
        simp [settleTask, htid]
      simp only [statsInv] at h ⊢
      rw [e1, e2, e3, e4, hlen, List.length_append]
      simp only [List.length_cons, List.length_nil]
      omega
    · rw [show settleTask s tid ok = s from by rw [settleTask, if_neg htid]]
      exact ⟨h, le_refl _⟩
  | cleanup tid now =>
    show statsInv (cleanupTask s tid now) ∧
      s.stats.totalStarted ≤ (cleanupTask s tid now).stats.totalStarted
    rw [cleanupTask]
    by_cases htid : tid ∈ s.pendingCleanup
    · rw [if_pos htid, processQueue]
      have hlen := List.length_erase_of_mem htid
      have hpos : 0 < s.pendingCleanup.length := List.length_pos_of_mem htid
      simp only [statsInv] at h
      have h1 : statsInv { s with
          pendingCleanup := s.pendingCleanup.erase tid
          active := s.active.erase tid
          stats := { s.stats with
                     totalCompleted := s.stats.totalCompleted + 1 } } := by
        show s.stats.totalCompleted + 1 + s.running.length +
          (s.pendingCleanup.erase tid).length ≤ s.stats.totalStarted
        rw [hlen]
        omega
      refine ⟨(drainRun_stats _ _ h1).1, le_trans ?_ (drainRun_stats _ _ h1).2⟩
      exact le_refl _
    · rw [if_neg htid]
      exact ⟨h, le_refl _⟩

lemma runTrace_stats : ∀ (es : List CEvent) (s : CState),
    resetFree s es = true → statsInv s →
    statsInv (runTrace s es) ∧
      s.stats.totalStarted ≤ (runTrace s es).stats.totalStarted
  | [], _, _, h => ⟨h, le_refl _⟩
  | e :: es, s, hrf, h => by
    rw [resetFree, Bool.and_eq_true] at hrf
    obtain ⟨s1a, s1b⟩ := step_stats hrf.1 h
    obtain ⟨s2a, s2b⟩ := runTrace_stats es (step s e) hrf.2 s1a
    exact ⟨s2a, le_trans s1b s2b⟩

lemma runTrace_append (es1 es2 : List CEvent) (s : CState) :
    runTrace s (es1 ++ es2) = runTrace (runTrace s es1) es2 := by
  rw [runTrace, runTrace, runTrace, List.foldl_append]

lemma resetFree_append : ∀ (es1 es2 : List CEvent) (s : CState),
    resetFree s (es1 ++ es2) =
      (resetFree s es1 && resetFree (runTrace s es1) es2)
  | [], es2, s => by
    rw [List.nil_append]
    show resetFree s es2 = (true && resetFree s es2)
    rw [Bool.true_and]
  | e :: es1, es2, s => by
    rw [List.cons_append, resetFree, resetFree,
      resetFree_append es1 es2 (step s e), Bool.and_assoc]
    rfl

/-! ## Claim theorems -/

/-- C7: `extractVersionFromText` satisfies the spec's concrete
examples: the full version line is idempotent, a bare `vX.Y.Z-build`
and a bare `X.Y.Z` are prefixed with the service name, the empty string
yields the generic sentinel, and short pattern-free text is returned
verbatim. -/
theorem C7_extract_examples :
    extractVersionFromText (.str "subconverter v0.9.9-7544246 backend") =
      "subconverter v0.9.9-7544246 backend" ∧
    extractVersionFromText (.str "v0.9.9-7544246") =
      "subconverter v0.9.9-7544246" ∧
    extractVersionFromText (.str "0.9.9") = "subconverter v0.9.9" ∧
    extractVersionFromText (.str "") = "subconverter" ∧
    extractVersionFromText (.str "hello world") = "hello world" := by
  decide

/-- C3 counterexample: a 200 response whose body reads successfully as
"hello" — which does not contain the service identity substring
"subconverter" (case-insensitively) — is still classified healthy by
`fullCheck`, because the content sniff is OR'd with
`response.status === 200`; the claim's "reported unhealthy" is false
here. -/
theorem C3_counterexample :
    hasInfix "subconverter".data ("hello".data.map Char.toLower) = false ∧
    (fullCheckFn (fun _ => 0) "ts" (.response 10 200 (some "hello"))).healthy
      = true := by
  decide

/-- C3 amended: in `fullCheck`, a 200 response whose body is read
successfully is always classified healthy, whether or not the body
contains "subconverter" — the content sniff is disjoined with the
status check and can never downgrade a 200 response. -/
theorem C3_amended_full200_healthy (score : Nat → Nat) (ts : String)
    (rt : Nat) (text : String) :
    (fullCheckFn score ts (.response rt 200 (some text))).healthy = true := by
  show (hasInfix "subconverter".data (text.data.map Char.toLower)
    || (200 == 200)) = true
  simp

/-- C4: on a 200 response whose body read fails, `priorityCheck` keeps
`healthy: true` with the generic version string and the computed
response-time score, while `fullCheck` reports `healthy: false` — the
fast and full paths classify such a response oppositely. -/
theorem C4_fast_full_asymmetry (score : Nat → Nat) (ts : String) (rt : Nat) :
    (priorityCheckFn score ts (.response rt 200 none)).healthy = true ∧
    (priorityCheckFn score ts (.response rt 200 none)).version
      = "subconverter" ∧
    (priorityCheckFn score ts (.response rt 200 none)).responseTimeScore
      = score rt ∧
    (fullCheckFn score ts (.response rt 200 none)).healthy = false ∧
    (priorityCheckFn score ts (.response rt 200 none)).healthy ≠
      (fullCheckFn score ts (.response rt 200 none)).healthy := by
  exact ⟨rfl, rfl, rfl, rfl, fun h => Bool.noConfusion h⟩

/-- C9: a transport error or timeout inside a probe's check function is
never propagated: both paths return the structured result with
`healthy: false`, score 0, status 0, `responseTime: null` and the
transport error's name in the `error` field. -/
theorem C9_transport_error_result (score : Nat → Nat) (ts errName : String) :
    priorityCheckFn score ts (.fetchErr errName) =
      { healthy := false
        responseTime := none
        responseTimeScore := 0
        status := 0
        version := "未知版本"
        priority := "high"
        error := some errName
        timestamp := ts } ∧
    fullCheckFn score ts (.fetchErr errName) =
      { healthy := false
        responseTime := none
        responseTimeScore := 0
        status := 0
        version := "未知版本"
        priority := "normal"
        error := some errName
        timestamp := ts } :=
  ⟨rfl, rfl⟩

/-- C5: with valid credentials, an enabled type and every delivery
attempt failing, exactly three attempts run, separated by sleeps of
`baseDelay` then `2 × baseDelay` (strictly increasing when the delay is
positive), the fallback runs after the last attempt, and the outcome is
`success: false, usedFallback: true`. -/
theorem C5_retry_backoff (d : Nat) (errOf : Nat → String) (hd : 0 < d) :
    sendNotification ⟨3, d, true⟩ true true true (fun n => .error (errOf n)) =
      ([.attemptSend 1, .sleep d, .attemptSend 2, .sleep (2 * d),
        .attemptSend 3, .fallback, .saveDB false],
       { success := false
         attempt := some 3
         error := some (errOf 3)
         usedFallback := some true
         reason := none }) ∧
    d < 2 * d := by
  constructor
  · rw [sendNotification]
    simp only [Bool.not_true, Bool.false_or, Bool.or_self, if_false]
    rw [attemptLoop]
    simp only
    rw [attemptLoop]
    simp only
    rw [attemptLoop]
    simp only
    norm_num [Nat.mul_comm]
  · omega

/-- Witness for C5 at the source's configuration
(`retryDelay = 1000`). -/
theorem C5_retry_backoff_witness :
    sendNotification ⟨3, 1000, true⟩ true true true
        (fun _ => .error "HTTP 500: Internal Server Error") =
      ([.attemptSend 1, .sleep 1000, .attemptSend 2, .sleep (2 * 1000),
        .attemptSend 3, .fallback, .saveDB false],
       { success := false
         attempt := some 3
         error := some "HTTP 500: Internal Server Error"
         usedFallback := some true
         reason := none }) ∧
    1000 < 2 * 1000 :=
  C5_retry_backoff 1000 (fun _ => "HTTP 500: Internal Server Error")
    (by decide)

/-- C8: a `scheduleCheck` call strictly more than five minutes after
`lastResetTime` first resets — zeroing every counter, clearing the
active map and the queue, stamping `lastResetTime` to now — and only
then admits or enqueues its task; at five minutes or less no reset
occurs. -/
theorem C8_lazy_reset (s : CState) (tid now : Nat) :
    (5 * 60 * 1000 < now - s.stats.lastResetTime →
      scheduleCheck s tid now = admitOrQueue (applyReset s now) tid now ∧
      (applyReset s now).stats.totalStarted = 0 ∧
      (applyReset s now).stats.totalCompleted = 0 ∧
      (applyReset s now).stats.maxActive = 0 ∧
      (applyReset s now).stats.errors = 0 ∧
      (applyReset s now).stats.successes = 0 ∧
      (applyReset s now).active = [] ∧
      (applyReset s now).queue = [] ∧
      (applyReset s now).stats.lastResetTime = now) ∧
    (now - s.stats.lastResetTime ≤ 5 * 60 * 1000 →
      scheduleCheck s tid now = admitOrQueue s tid now) := by
  constructor
  · intro h
    refine ⟨?_, rfl, rfl, rfl, rfl, rfl, rfl, rfl, rfl⟩
    rw [scheduleCheck, admitOrQueue, if_pos h]
  · intro h
    exact scheduleCheck_no_reset h

/-- Witness for C8: a fresh controller reset-admits at 300001 ms and
admits without reset at 100 ms. -/
theorem C8_lazy_reset_witness :
    scheduleCheck (initController 5 0) 1 300001 =
      admitOrQueue (applyReset (initController 5 0) 300001) 1 300001 ∧
    scheduleCheck (initController 5 0) 1 100 =
      admitOrQueue (initController 5 0) 1 100 :=
  ⟨((C8_lazy_reset (initController 5 0) 1 300001).1 (by decide)).1,
   (C8_lazy_reset (initController 5 0) 1 100).2 (by decide)⟩

/-- Trace refuting C1: five tasks admitted at time 0 are still running
when a sixth `scheduleCheck` arrives after the five-minute window; the
lazy reset clears the active map, the sixth task is admitted, and six
check functions execute concurrently. -/
def c1Trace : List CEvent :=
  [.schedule 1 0, .schedule 2 0, .schedule 3 0, .schedule 4 0, .schedule 5 0,
   .schedule 6 (5 * 60 * 1000 + 1)]

/-- C1 counterexample: on a well-formed (unique-key) call sequence with
`maxConcurrent = 5`, six check functions end up concurrently executing —
the admission bound does not survive a lazy reset that clears the
active set while tasks are in flight. -/
theorem C1_counterexample :
    wfTrace (initController 5 0) c1Trace = true ∧
    (runTrace (initController 5 0) c1Trace).running.length = 6 ∧
    5 < (runTrace (initController 5 0) c1Trace).running.length := by
  decide

/-- C1 amended: in any well-formed execution in which no lazy reset
fires (a single reset window), the number of concurrently executing
check functions never exceeds `maxConcurrent`, and a call that finds
the active set at capacity (absent a reset) is enqueued rather than
run. -/
theorem C1_admission_bound (maxC t0 : Nat) (es : List CEvent)
    (hwf : wfTrace (initController maxC t0) es = true)
    (hrf : resetFree (initController maxC t0) es = true) :
    (runTrace (initController maxC t0) es).running.length ≤ maxC ∧
    (∀ (s : CState) (tid now : Nat),
       now - s.stats.lastResetTime ≤ 5 * 60 * 1000 →
       s.maxConcurrent ≤ s.active.length →
       scheduleCheck s tid now = { s with queue := s.queue ++ [⟨tid, now⟩] }) := by
  constructor
  · obtain ⟨hperm, _, _, _, hb⟩ :=
      InvC_runTrace es (initController maxC t0) (InvC_init maxC t0) hwf hrf
    have hlen := hperm.length_eq
    rw [List.length_append] at hlen
    have hmc : (runTrace (initController maxC t0) es).maxConcurrent = maxC :=
      runTrace_maxC es (initController maxC t0)
    omega
  · intro s tid now hno hfull
    rw [scheduleCheck_no_reset hno, admitOrQueue, if_neg (by omega)]

/-- A state at capacity, for the enqueue half of the C1 witness. -/
def c1FullState : CState := { initController 1 0 with active := [9] }

/-- Witness for C1 on a concrete reset-free trace and a concrete
at-capacity call. -/
theorem C1_admission_bound_witness :
    (runTrace (initController 5 0)
        [.schedule 1 0, .settle 1 true]).running.length ≤ 5 ∧
    scheduleCheck c1FullState 7 100 =
      { c1FullState with queue := c1FullState.queue ++ [⟨7, 100⟩] } :=
  ⟨(C1_admission_bound 5 0 [.schedule 1 0, .settle 1 true]
      (by decide) (by decide)).1,
   (C1_admission_bound 5 0 [] (by decide) (by decide)).2 c1FullState 7 100
      (by decide) (by decide)⟩

/-- Trace refuting C2's cross-reset part: two tasks complete before the
window expires, their deferred 100 ms cleanups are still pending when a
reset fires, and the post-reset cleanups drive `totalCompleted` above
`totalStarted`. -/
def c2PreTrace : List CEvent :=
  [.schedule 1 0, .settle 1 true, .schedule 2 0, .settle 2 true,
   .schedule 3 (5 * 60 * 1000 + 1)]

def c2PostTrace : List CEvent :=
  [.cleanup 1 (5 * 60 * 1000 + 2), .cleanup 2 (5 * 60 * 1000 + 2)]

/-- C2 counterexample: inside the reset window opened by the lazy reset
(the post-reset events trigger no further reset), the counters reach
`totalStarted = 1 < 2 = totalCompleted`: the invariant does not survive
completions of tasks started before the reset. -/
theorem C2_counterexample :
    resetFree (runTrace (initController 5 0) c2PreTrace) c2PostTrace = true ∧
    (runTrace (initController 5 0)
        (c2PreTrace ++ c2PostTrace)).stats.totalStarted <
      (runTrace (initController 5 0)
        (c2PreTrace ++ c2PostTrace)).stats.totalCompleted := by
  decide

/-- C2 amended: immediately after a reset both counters are zero, and
throughout the controller's first reset window (equivalently, any
reset-free execution from construction, where no pre-window cleanups
exist) `totalCompleted ≤ totalStarted` holds at every point and
`totalStarted` is non-decreasing. -/
theorem C2_stats_monotone (maxC t0 : Nat) (es1 es2 : List CEvent)
    (hrf : resetFree (initController maxC t0) (es1 ++ es2) = true) :
    (∀ (s : CState) (now : Nat),
       (applyReset s now).stats.totalStarted = 0 ∧
       (applyReset s now).stats.totalCompleted = 0) ∧
    (runTrace (initController maxC t0) es1).stats.totalCompleted ≤
      (runTrace (initController maxC t0) es1).stats.totalStarted ∧
    (runTrace (initController maxC t0) es1).stats.totalStarted ≤
      (runTrace (initController maxC t0) (es1 ++ es2)).stats.totalStarted := by
  rw [resetFree_append, Bool.and_eq_true] at hrf
  refine ⟨fun s now => ⟨rfl, rfl⟩, ?_, ?_⟩
  · have h1 := (runTrace_stats es1 _ hrf.1 (statsInv_init maxC t0)).1
    simp only [statsInv] at h1
    omega
  · rw [runTrace_append]
    exact (runTrace_stats es2 _ hrf.2
      (runTrace_stats es1 _ hrf.1 (statsInv_init maxC t0)).1).2

/-- Witness for C2 on a concrete reset-free trace. -/
theorem C2_stats_monotone_witness :
    ((applyReset (initController 5 0) 7).stats.totalStarted = 0 ∧
     (applyReset (initController 5 0) 7).stats.totalCompleted = 0) ∧
    (runTrace (initController 5 0) [CEvent.schedule 1 0]).stats.totalCompleted ≤
      (runTrace (initController 5 0) [CEvent.schedule 1 0]).stats.totalStarted ∧
    (runTrace (initController 5 0) [CEvent.schedule 1 0]).stats.totalStarted ≤
      (runTrace (initController 5 0)
        ([CEvent.schedule 1 0] ++ [CEvent.settle 1 true])).stats.totalStarted :=
  ⟨(C2_stats_monotone 5 0 [.schedule 1 0] [.settle 1 true] (by decide)).1
      (initController 5 0) 7,
   (C2_stats_monotone 5 0 [.schedule 1 0] [.settle 1 true] (by decide)).2.1,
   (C2_stats_monotone 5 0 [.schedule 1 0] [.settle 1 true] (by decide)).2.2⟩

/-- C6: on a queue drain, an entry 30 seconds old or older is removed
without its deferred work being invoked — its task id appears neither
among the drained invocations, nor in the remaining queue, nor among
the running tasks, so the caller's promise is never resolved or
rejected by this path — while younger entries are drained in FIFO order
exactly while capacity remains. -/
theorem C6_stale_drop_fifo (s : CState) (now : Nat) (i : QueueItem)
    (hnd : (s.queue.map QueueItem.tid).Nodup)
    (hdisjA : ∀ j ∈ s.queue, j.tid ∉ s.active)
    (hdisjR : ∀ j ∈ s.queue, j.tid ∉ s.running)
    (hi : i ∈ s.queue)
    (hstale : 30000 ≤ now - i.addedTime) :
    (processQueue s now).2 =
      ((s.queue.filter fun it => now - it.addedTime < 30000).take
          (s.maxConcurrent - s.active.length)).map QueueItem.tid ∧
    (processQueue s now).1.queue =
      (s.queue.filter fun it => now - it.addedTime < 30000).drop
        (s.maxConcurrent - s.active.length) ∧
    i.tid ∉ (processQueue s now).2 ∧
    i ∉ (processQueue s now).1.queue ∧
    i.tid ∉ (processQueue s now).1.running := by
  have hdF : ∀ j ∈ s.queue.filter (fun it => now - it.addedTime < 30000),
      j.tid ∉ s.active :=
    fun j hj => hdisjA j (List.mem_of_mem_filter hj)
  have hndF : ((s.queue.filter
      (fun it => now - it.addedTime < 30000)).map QueueItem.tid).Nodup :=
    List.Nodup.sublist ((List.filter_sublist s.queue).map QueueItem.tid) hnd
  have htd := drainRun_take_drop
    (s.queue.filter (fun it => now - it.addedTime < 30000)) s hdF hndF
  have hiF : i ∉ s.queue.filter (fun it => now - it.addedTime < 30000) := by
    intro hmem
    have hp := (List.mem_filter.mp hmem).2
    have := of_decide_eq_true hp
    omega
  have hitid : i.tid ∉ (s.queue.filter
      (fun it => now - it.addedTime < 30000)).map QueueItem.tid := by
    intro hmem
    obtain ⟨j, hjF, hj2⟩ := List.mem_map.mp hmem
    have hji : j = i :=
      List.inj_on_of_nodup_map hnd (List.mem_of_mem_filter hjF) hi hj2
    exact hiF (hji ▸ hjF)
  have hproc : processQueue s now =
      drainRun s (s.queue.filter (fun it => now - it.addedTime < 30000)) := rfl
  refine ⟨?_, ?_, ?_, ?_, ?_⟩
  · rw [hproc]; exact htd.1
  · rw [hproc]; exact htd.2
  · rw [hproc, htd.1]
    intro hmem
    exact hitid (List.map_subset _ (List.take_subset _ _) hmem)
  · rw [hproc, htd.2]
    intro hmem
    exact hiF (List.drop_subset _ _ hmem)
  · rw [hproc]
    intro hmem
    rcases drainRun_running_sub _ s i.tid hmem with h1 | h1
    · exact hdisjR i hi h1
    · rw [htd.1] at h1
      exact hitid (List.map_subset _ (List.take_subset _ _) h1)

/-- A queue with one 40-second-old entry and two fresh ones, for the C6
witness. -/
def c6State : CState :=
  { initController 5 0 with queue := [⟨1, 0⟩, ⟨2, 39000⟩, ⟨3, 39500⟩] }

/-- Witness for C6 at a concrete drain. -/
theorem C6_stale_drop_fifo_witness :
    (processQueue c6State 40000).2 =
      ((c6State.queue.filter fun it => 40000 - it.addedTime < 30000).take
          (c6State.maxConcurrent - c6State.active.length)).map QueueItem.tid ∧
    (processQueue c6State 40000).1.queue =
      (c6State.queue.filter fun it => 40000 - it.addedTime < 30000).drop
        (c6State.maxConcurrent - c6State.active.length) ∧
    (QueueItem.mk 1 0).tid ∉ (processQueue c6State 40000).2 ∧
    QueueItem.mk 1 0 ∉ (processQueue c6State 40000).1.queue ∧
    (QueueItem.mk 1 0).tid ∉ (processQueue c6State 40000).1.running :=
  C6_stale_drop_fifo c6State 40000 ⟨1, 0⟩ (by decide) (by decide) (by decide)
    (by decide) (by decide)

/-- C10: `extractVersionFromText` is total and always returns a
non-empty string; null, undefined, non-string values and strings empty
after trimming yield the sentinel "subconverter", and pattern-free text
longer than 50 characters with no qualifying token also yields the
sentinel rather than the raw input. -/
theorem C10_extract_total :
    (∀ v : JSVal, extractVersionFromText v ≠ "") ∧
    (extractVersionFromText .null = "subconverter" ∧
     extractVersionFromText .undef = "subconverter" ∧
     (∀ n : Int, extractVersionFromText (.num n) = "subconverter") ∧
     (∀ b : Bool, extractVersionFromText (.boolean b) = "subconverter") ∧
     (∀ s : String, trimJS s.data = [] →
        extractVersionFromText (.str s) = "subconverter")) ∧
    (∀ s : String, matchPatterns (trimJS s.data) = none →
       50 < (trimJS s.data).length →
       (∀ w ∈ splitWS (trimJS s.data), qualifiesWord w = false) →
       extractVersionFromText (.str s) = "subconverter") := by
  refine ⟨?_, ⟨rfl, rfl, fun _ => rfl, fun _ => rfl, ?_⟩, ?_⟩
  · intro v
    cases v with
    | null => exact (by decide : ("subconverter" : String) ≠ "")
    | undef => exact (by decide : ("subconverter" : String) ≠ "")
    | num n => exact (by decide : ("subconverter" : String) ≠ "")
    | boolean b => exact (by decide : ("subconverter" : String) ≠ "")
    | str s =>
      by_cases hs : s = ""
      · subst hs
        exact (by decide : extractVersionFromText (.str "") ≠ "")
      · rw [extractVersionFromText, if_neg hs]
        intro h
        have h2 := congrArg String.data h
        exact extractChars_ne_nil s.data h2
  · intro s h
    by_cases hs : s = ""
    · subst hs; decide
    · rw [extractVersionFromText, if_neg hs]
      show String.mk (extractChars s.data) = "subconverter"
      rw [extractChars]
      simp only [h, matchPatterns_nil]
      decide
  · intro s h1 h2 h3
    by_cases hs : s = ""
    · subst hs
      revert h2
      decide
    · rw [extractVersionFromText, if_neg hs]
      show String.mk (extractChars s.data) = "subconverter"
      rw [extractChars]
      simp only [h1]
      have hnot : ¬ ((trimJS s.data).length ≤ 50) := by omega
      rw [if_neg hnot]
      have hfind : (splitWS (trimJS s.data)).find? qualifiesWord = none := by
        rw [List.find?_eq_none]
        intro w hw
        simp [h3 w hw]
      simp only [hfind]

/-- A 51-character pattern-free string for the C10 witness. -/
def c10Long : String := String.mk (List.replicate 51 'a')

/-- Witness for C10 at a whitespace-only string and at a long
pattern-free string. -/
theorem C10_extract_total_witness :
    extractVersionFromText (.str "   ") = "subconverter" ∧
    extractVersionFromText (.str c10Long) = "subconverter" :=
  ⟨C10_extract_total.2.1.2.2.2.2 "   " (by decide),
   C10_extract_total.2.2 c10Long (by decide) (by decide) (by decide)⟩

end SubFail
